import Mathlib

/-!
Shallow embedding of the `boost::threadpool` pool facade
(`src/boost/threadpool/pool.hpp`) together with the pool-core engine it
delegates to.  The repository ships only the facade header; the core
(`detail/pool_core.hpp`) and the policy headers (`scheduling_policies.hpp`,
`size_policies.hpp`, `shutdown_policies.hpp`, `task_adaptors.hpp`) are not
part of the sources, so those components are modelled from the
specification, as marked on each definition.
-/

namespace Threadpool

/-- Outcome of executing a task body: either a returned value or a raised
failure (exception).  Task bodies are modelled as `Except String Nat`. -/
inductive Outcome where
  | value : Nat → Outcome
  | failure : String → Outcome
deriving DecidableEq, Repr

/-- State of an async result handle (a `boost::future`): pending until the
wrapped packaged task runs (or the task is cancelled), then fulfilled with
an outcome, never fulfilled twice. -/
inductive HandleState where
  | pending : HandleState
  | fulfilled : Outcome → HandleState
deriving DecidableEq, Repr

deriving instance DecidableEq for Except

/-- A submitted task: `valid` models whether the callable is well formed
(a null/invalid callable has `valid = false`), `body` is what the callable
does when invoked. -/
structure Task where
  valid : Bool
  body : Except String Nat
deriving DecidableEq, Repr

/-- A task as registered inside the pool: the submitted task together with
the identifier of the async result handle created for it by `schedule`. -/
structure RTask where
  id : Nat
  task : Task
deriving DecidableEq, Repr

/-- Convert the result of running a task body into the outcome recorded on
its handle (the packaged task stores the value, or captures the failure). -/
def outcomeOf : Except String Nat → Outcome
  | Except.ok v => Outcome.value v
  | Except.error e => Outcome.failure e

/-- Fulfil the handle `i` with outcome `o` if it is still pending; a handle
that is already fulfilled is never overwritten (one-shot channel). -/
def fulfillAt (hs : Nat → HandleState) (i : Nat) (o : Outcome) : Nat → HandleState :=
  fun j =>
    if j = i then
      match hs i with
      | HandleState.pending => HandleState.fulfilled o
      | x => x
    else hs j

/-- Modelled from the spec: `fifo_scheduler::push` of the missing
`scheduling_policies.hpp` appends the task at the back of the queue. -/
def fifo_push (q : List RTask) (t : RTask) : List RTask := q ++ [t]

/-- Modelled from the spec: `fifo_scheduler::pop_next` of the missing
`scheduling_policies.hpp` removes and returns the front of the queue. -/
def fifo_pop : List RTask → Option (RTask × List RTask)
  | [] => none
  | t :: rest => some (t, rest)

/-- Modelled from the spec: the state of `detail::pool_core` (missing from
the sources): the task container (FIFO order, front next to pop), the tasks
currently executing, the worker-thread count, the terminated flag, a
counter providing fresh handle identifiers, and the map from handle
identifiers to handle states. -/
structure PoolCore where
  container : List RTask
  running : List RTask
  workerCount : Nat
  terminated : Bool
  nextId : Nat
  handles : Nat → HandleState

namespace PoolCore

/-- Number of tasks ready for execution (`pool_core::pending`; the spec
invariant `pending_count == task_container.size()` holds by construction). -/
def pending (s : PoolCore) : Nat := s.container.length

/-- Number of tasks currently being executed (`pool_core::active`). -/
def active (s : PoolCore) : Nat := s.running.length

/-- Number of worker threads (`pool_core::size`). -/
def size (s : PoolCore) : Nat := s.workerCount

/-- Modelled from the spec: `pool_core::empty` of the missing
`detail/pool_core.hpp` reports whether the task container is empty. -/
def empty (s : PoolCore) : Bool := s.container.isEmpty

/-- Modelled from the spec: `pool_core::schedule` of the missing
`detail/pool_core.hpp`: returns `false` if the pool has been shut down or
the task is malformed, otherwise registers a fresh pending handle, pushes
the task per the FIFO policy and increments the pending count. -/
def schedule (s : PoolCore) (t : Task) : Bool × PoolCore :=
  if s.terminated || !t.valid then (false, s)
  else
    (true,
      { s with
        container := fifo_push s.container { id := s.nextId, task := t },
        nextId := s.nextId + 1,
        handles := fun j => if j = s.nextId then HandleState.pending else s.handles j })

/-- Modelled from the spec: a worker with free capacity pops the next task
per the scheduling policy, moving it from pending to active; no worker pops
when all `workerCount` workers are busy (spec invariant
`active_count <= target_size`), and a pool with zero workers never pops. -/
def startNext (s : PoolCore) : PoolCore :=
  if s.running.length < s.workerCount then
    match fifo_pop s.container with
    | none => s
    | some (t, rest) => { s with container := rest, running := s.running ++ [t] }
  else s

/-- Modelled from the spec: the worker executing the `i`-th running task
completes it: the task body is invoked via its packaged task, whose outcome
(value or captured failure) fulfils the task's handle, and the active count
drops by one.  The worker loop itself is total: a failing body is captured
on the handle, never propagated. -/
def finishAt (s : PoolCore) (i : Nat) : PoolCore :=
  match s.running.get? i with
  | none => s
  | some t =>
      { s with
        running := s.running.eraseIdx i,
        handles := fulfillAt s.handles t.id (outcomeOf t.task.body) }

/-- Modelled from the spec: discarding one pending task during `clear`:
the task leaves the container and its handle is fulfilled with a
cancellation failure. -/
def clearOne (s : PoolCore) : PoolCore :=
  match s.container with
  | [] => s
  | t :: rest =>
      { s with
        container := rest,
        handles := fulfillAt s.handles t.id (Outcome.failure "cancelled") }

/-- Fulfil the handles of all listed tasks with a cancellation failure, in
list order. -/
def cancelAll (hs : Nat → HandleState) : List RTask → (Nat → HandleState)
  | [] => hs
  | t :: rest => cancelAll (fulfillAt hs t.id (Outcome.failure "cancelled")) rest

/-- Modelled from the spec: `pool_core::clear` of the missing
`detail/pool_core.hpp`: discards all tasks currently in the task container,
fulfilling each discarded task's handle with a cancellation failure; tasks
already popped and executing are not affected. -/
def clear (s : PoolCore) : PoolCore :=
  { s with container := [], handles := cancelAll s.handles s.container }

/-- Modelled from the spec: the return condition of the blocking
`pool_core::wait(threshold)`: the call returns exactly in states where
`pending + active <= threshold`. -/
def waitCondition (s : PoolCore) (threshold : Nat) : Bool :=
  Nat.ble (s.pending + s.active) threshold

end PoolCore

/-- Modelled from the spec: the timed `pool_core::wait(timestamp,
threshold)` of the missing `detail/pool_core.hpp`.  `s` is the pool state
when the wait begins and `obs` the states observed at successive
condition-variable wakeups before the deadline; when `obs` is exhausted the
deadline has elapsed.  Returns whether the threshold was reached together
with the (unmodified) pool state at the moment of return. -/
def timedWait (threshold : Nat) : PoolCore → List PoolCore → Bool × PoolCore
  | s, obs =>
    if PoolCore.waitCondition s threshold then (true, s)
    else
      match obs with
      | [] => (false, s)
      | s2 :: rest => timedWait threshold s2 rest

/-- One observable transition of the pool engine, at per-task granularity:
a schedule call, a worker dequeuing the next task, a running task
finishing, or one pending task being discarded by `clear`. -/
inductive Event where
  | sched : Task → Event
  | start : Event
  | finish : Nat → Event
  | clearOne : Event

/-- Step function of the pool engine's transition system. -/
def step (s : PoolCore) : Event → PoolCore
  | Event.sched t => (s.schedule t).2
  | Event.start => s.startNext
  | Event.finish i => s.finishAt i
  | Event.clearOne => s.clearOne

/-- Schedule a list of tasks in order (repeated `schedule` calls by a
single submitter thread). -/
def scheduleAll (s : PoolCore) : List Task → PoolCore
  | [] => s
  | t :: rest => scheduleAll (s.schedule t).2 rest

/-- Tag a submission sequence with the consecutive handle identifiers the
pool assigns, starting at `n`. -/
def tagFrom (n : Nat) : List Task → List RTask
  | [] => []
  | t :: rest => { id := n, task := t } :: tagFrom (n + 1) rest

/-- Repeatedly apply `fifo_pop` (up to `fuel` times) and collect the popped
tasks: the dequeue order of the FIFO scheduler. -/
def drainAll : Nat → List RTask → List RTask
  | 0, _ => []
  | fuel + 1, q =>
    match fifo_pop q with
    | none => []
    | some (t, rest) => t :: drainAll fuel rest

namespace thread_pool

/-- Embeds `thread_pool::schedule` (pool.hpp, lines 131-149): the task is
wrapped into a packaged task whose future is the async result handle; the
wrapped task is submitted to the core; on success the handle (identified by
the fresh id the core assigned) is returned, and when the core rejects the
task the facade throws `std::invalid_argument` (modelled as
`Except.error`). -/
def schedule (s : PoolCore) (t : Task) : Except String (Nat × PoolCore) :=
  let r := PoolCore.schedule s t
  if r.1 then Except.ok (s.nextId, r.2)
  else Except.error "Invalid function passed to be executed"

end thread_pool

/-- A freshly constructed pool core: no tasks, no workers, not terminated. -/
def initialCore : PoolCore :=
  { container := [], running := [], workerCount := 0, terminated := false,
    nextId := 0, handles := fun _ => HandleState.pending }

namespace static_size

/-- Modelled from the spec: `static_size::init` of the missing
`size_policies.hpp` resizes the pool to exactly the requested worker count
and never changes it afterwards. -/
def init (s : PoolCore) (requested : Nat) : PoolCore := { s with workerCount := requested }

end static_size

namespace thread_pool

/-- Embeds the `thread_pool` constructor (pool.hpp, lines 104-108): creates
a fresh core and calls `size_policy_type::init(*m_core, initial_threads)`
with exactly the requested count. -/
def new (initial_threads : Nat) : PoolCore := static_size.init initialCore initial_threads

/-- Embeds a default-constructed `thread_pool`: the constructor's
`initial_threads` parameter defaults to `0` (pool.hpp, line 104). -/
def newDefault : PoolCore := new 0

end thread_pool

/-- State of the reference-counting scheme of pool.hpp, lines 83-84 and
104-108: every `thread_pool` copy holds one reference to the shared
`m_shutdown_controller`, whose deleter runs `pool_core::shutdown` when the
last reference is released.  `refCount` is the number of live `thread_pool`
copies and `shutdownCalls` the number of times `pool_core::shutdown` has
run. -/
structure ShutdownController where
  refCount : Nat
  shutdownCalls : Nat
deriving DecidableEq, Repr

/-- An ownership event on the pool handle: copying a live handle or
dropping one. -/
inductive RefOp where
  | copy : RefOp
  | drop : RefOp

/-- Semantics of `shared_ptr` reference counting applied to
`m_shutdown_controller`: copying a live handle increments the count;
dropping decrements it, and the drop that releases the last reference runs
the deleter, i.e. `pool_core::shutdown`, at that moment. -/
def refStep (s : ShutdownController) : RefOp → ShutdownController
  | RefOp.copy => if s.refCount = 0 then s else { s with refCount := s.refCount + 1 }
  | RefOp.drop =>
    match s.refCount with
    | 0 => s
    | 1 => { refCount := 0, shutdownCalls := s.shutdownCalls + 1 }
    | n + 2 => { s with refCount := n + 1 }

/-- Apply a sequence of copy/drop events. -/
def refRun (s : ShutdownController) (ops : List RefOp) : ShutdownController :=
  ops.foldl refStep s

/-- The controller created by the `thread_pool` constructor: one live
handle, shutdown not yet run. -/
def initController : ShutdownController := { refCount := 1, shutdownCalls := 0 }

/-- Sample valid task returning 7. -/
def taskA : Task := { valid := true, body := Except.ok 7 }

/-- Sample valid task returning 8. -/
def taskB : Task := { valid := true, body := Except.ok 8 }

/-- Sample valid task whose body raises a failure. -/
def taskFail : Task := { valid := true, body := Except.error "boom" }

/-- Sample malformed task (null/invalid callable). -/
def invalidTask : Task := { valid := false, body := Except.ok 0 }

/-- Sample pool with one worker and two pending scheduled tasks. -/
def samplePool : PoolCore :=
  (PoolCore.schedule (PoolCore.schedule (thread_pool.new 1) taskA).2 taskB).2

/-- Sample pool that has been shut down. -/
def stoppedPool : PoolCore := { initialCore with terminated := true }

end Threadpool

namespace Threadpool

/-! Helper lemmas shared by the claim theorems. -/

theorem refStep_inv (s : ShutdownController) (op : RefOp)
    (h : s.shutdownCalls = if s.refCount = 0 then 1 else 0) :
    (refStep s op).shutdownCalls = if (refStep s op).refCount = 0 then 1 else 0 := by
  obtain ⟨rc, sc⟩ := s
  simp only at h
  cases op with
  | copy =>
    match rc, h with
    | 0, h => simpa using h
    | n + 1, h => simpa [refStep] using h
  | drop =>
    match rc, h with
    | 0, h => simpa using h
    | 1, h => simp at h; simp [refStep, h]
    | n + 2, h => simp at h; simp [refStep, h]

theorem cancelAll_preserves_fulfilled (ts : List RTask) (hs : Nat → HandleState)
    (j : Nat) (o : Outcome) (h : hs j = HandleState.fulfilled o) :
    PoolCore.cancelAll hs ts j = HandleState.fulfilled o := by
  induction ts generalizing hs with
  | nil => exact h
  | cons t rest ih =>
    apply ih
    unfold fulfillAt
    by_cases hj : j = t.id
    · subst hj
      simp [h]
    · simp [hj, h]

theorem cancelAll_cancels (ts : List RTask) : ∀ (hs : Nat → HandleState) (t : RTask),
    t ∈ ts → hs t.id = HandleState.pending →
    PoolCore.cancelAll hs ts t.id = HandleState.fulfilled (Outcome.failure "cancelled") := by
  induction ts with
  | nil => intro hs t hmem hp; cases hmem
  | cons u rest ih =>
    intro hs t hmem hp
    simp only [PoolCore.cancelAll]
    by_cases hid : t.id = u.id
    · apply cancelAll_preserves_fulfilled
      simp only [fulfillAt, if_pos hid]
      rw [← hid, hp]
    · have hmem2 : t ∈ rest := by
        rcases List.mem_cons.mp hmem with h1 | h1
        · exact absurd (congrArg RTask.id h1) hid
        · exact h1
      apply ih _ t hmem2
      simp only [fulfillAt, if_neg hid]
      exact hp

theorem schedule_snd_fields (s : PoolCore) (t : Task) :
    ((PoolCore.schedule s t).2).workerCount = s.workerCount ∧
    ((PoolCore.schedule s t).2).running = s.running ∧
    ((PoolCore.schedule s t).2).terminated = s.terminated := by
  unfold PoolCore.schedule
  split
  · exact ⟨rfl, rfl, rfl⟩
  · exact ⟨rfl, rfl, rfl⟩

theorem scheduleAll_fields (ts : List Task) : ∀ s : PoolCore,
    (scheduleAll s ts).workerCount = s.workerCount ∧
    (scheduleAll s ts).running = s.running ∧
    (scheduleAll s ts).terminated = s.terminated := by
  induction ts with
  | nil => intro s; exact ⟨rfl, rfl, rfl⟩
  | cons t rest ih =>
    intro s
    have h1 := schedule_snd_fields s t
    have h2 := ih (PoolCore.schedule s t).2
    refine ⟨?_, ?_, ?_⟩
    · rw [scheduleAll, h2.1, h1.1]
    · rw [scheduleAll, h2.2.1, h1.2.1]
    · rw [scheduleAll, h2.2.2, h1.2.2]

theorem scheduleAll_container (ts : List Task) (s : PoolCore)
    (hterm : s.terminated = false) (hvalid : ∀ t, t ∈ ts → t.valid = true) :
    (scheduleAll s ts).container = s.container ++ tagFrom s.nextId ts := by
  induction ts generalizing s with
  | nil => simp [scheduleAll, tagFrom]
  | cons t rest ih =>
    have hv : t.valid = true := hvalid t (List.mem_cons_self t rest)
    unfold scheduleAll
    have hrw : (PoolCore.schedule s t).2 =
        { s with
          container := fifo_push s.container { id := s.nextId, task := t },
          nextId := s.nextId + 1,
          handles := fun j => if j = s.nextId then HandleState.pending else s.handles j } := by
      unfold PoolCore.schedule
      simp [hterm, hv]
    rw [hrw]
    rw [ih _ (by simp [hterm]) (fun u hu => hvalid u (List.mem_cons_of_mem t hu))]
    simp [fifo_push, tagFrom, List.append_assoc]

theorem tagFrom_map_task (n : Nat) (ts : List Task) :
    (tagFrom n ts).map RTask.task = ts := by
  induction ts generalizing n with
  | nil => rfl
  | cons t rest ih => simp [tagFrom, ih]

theorem tagFrom_length (n : Nat) (ts : List Task) :
    (tagFrom n ts).length = ts.length := by
  induction ts generalizing n with
  | nil => rfl
  | cons t rest ih => simp [tagFrom, ih]

theorem drainAll_self (q : List RTask) : drainAll q.length q = q := by
  induction q with
  | nil => rfl
  | cons t rest ih => simp [drainAll, fifo_pop, ih]

/-! Theorems settling the claims. -/

/-- C3: over every sequence of handle copies and drops starting from the
freshly constructed pool, the core's `shutdown` has run exactly once when
the reference count has reached zero and exactly zero times while any
owning reference is alive; moreover a drop triggers `shutdown` exactly when
it releases the last reference, and a copy never does. -/
theorem shutdown_exactly_once :
    (∀ ops : List RefOp,
      (refRun initController ops).shutdownCalls =
        if (refRun initController ops).refCount = 0 then 1 else 0) ∧
    (∀ s : ShutdownController,
      (refStep s RefOp.drop).shutdownCalls =
        if s.refCount = 1 then s.shutdownCalls + 1 else s.shutdownCalls) ∧
    (∀ s : ShutdownController, (refStep s RefOp.copy).shutdownCalls = s.shutdownCalls) := by
  refine ⟨?_, ?_, ?_⟩
  · intro ops
    suffices h : ∀ s : ShutdownController,
        s.shutdownCalls = (if s.refCount = 0 then 1 else 0) →
        (refRun s ops).shutdownCalls = if (refRun s ops).refCount = 0 then 1 else 0 by
      exact h initController rfl
    induction ops with
    | nil => intro s hs; exact hs
    | cons op rest ih => intro s hs; exact ih (refStep s op) (refStep_inv s op hs)
  · intro s
    obtain ⟨rc, sc⟩ := s
    match rc with
    | 0 => simp [refStep]
    | 1 => simp [refStep]
    | n + 2 => simp [refStep]
  · intro s
    obtain ⟨rc, sc⟩ := s
    match rc with
    | 0 => simp [refStep]
    | n + 1 => simp [refStep]

/-- C9: `empty()` returns true exactly when `pending()` is zero. -/
theorem empty_iff_pending_zero (s : PoolCore) : s.empty = true ↔ s.pending = 0 := by
  simp [PoolCore.empty, PoolCore.pending, List.isEmpty_iff_length_eq_zero]

/-- C4: whenever the blocking `wait(threshold)` returns, at that instant
`pending() + active() <= threshold`; in particular `wait(0)` returns only
once both counters are zero. -/
theorem wait_postcondition (s : PoolCore) (threshold : Nat)
    (h : s.waitCondition threshold = true) :
    s.pending + s.active ≤ threshold ∧
    (threshold = 0 → s.pending = 0 ∧ s.active = 0) := by
  have hle : s.pending + s.active ≤ threshold := by
    have := h
    unfold PoolCore.waitCondition at this
    exact Nat.le_of_ble_eq_true this
  exact ⟨hle, fun h0 => by omega⟩

/-- Witness for C4 at the freshly constructed empty pool and threshold 0. -/
theorem wait_postcondition_witness :
    initialCore.waitCondition 0 = true ∧
    (initialCore.pending + initialCore.active ≤ 0 ∧
      (0 = 0 → initialCore.pending = 0 ∧ initialCore.active = 0)) :=
  ⟨rfl, wait_postcondition initialCore 0 rfl⟩

/-- C1 evidence: `thread_pool::schedule` does not return `false` on a
rejected submission; it throws `std::invalid_argument` (modelled as
`Except.error`), both for a pool that has been shut down and for a
malformed task, and in general whenever the core's `schedule` returns
`false`. -/
theorem schedule_throws_on_rejection :
    thread_pool.schedule stoppedPool taskA =
      Except.error "Invalid function passed to be executed" ∧
    thread_pool.schedule initialCore invalidTask =
      Except.error "Invalid function passed to be executed" ∧
    (∀ (s : PoolCore) (t : Task), (PoolCore.schedule s t).1 = false →
      thread_pool.schedule s t = Except.error "Invalid function passed to be executed") := by
  refine ⟨rfl, rfl, ?_⟩
  intro s t h
  unfold thread_pool.schedule
  simp [h]

/-- C6: under the FIFO policy (`fifo_pool` and the default `pool` alias),
the tasks a single submitter schedules are dequeued (via repeated
`pop_next`) in exactly their submission order. -/
theorem fifo_dequeue_order (s : PoolCore) (ts : List Task)
    (hterm : s.terminated = false) (hempty : s.container = [])
    (hvalid : ∀ t, t ∈ ts → t.valid = true) :
    (drainAll (scheduleAll s ts).container.length (scheduleAll s ts).container).map
      RTask.task = ts := by
  rw [scheduleAll_container ts s hterm hvalid, hempty, List.nil_append, drainAll_self,
    tagFrom_map_task]

/-- Witness for C6: two concrete tasks scheduled on the fresh pool are
dequeued in submission order. -/
theorem fifo_dequeue_order_witness :
    initialCore.terminated = false ∧ initialCore.container = [] ∧
    (∀ t, t ∈ [taskA, taskB] → t.valid = true) ∧
    (drainAll (scheduleAll initialCore [taskA, taskB]).container.length
      (scheduleAll initialCore [taskA, taskB]).container).map RTask.task = [taskA, taskB] :=
  ⟨rfl, rfl, by decide,
    fifo_dequeue_order initialCore [taskA, taskB] rfl rfl (by decide)⟩

/-- C10: the constructor's `initial_threads` parameter defaults to 0 and is
passed unchanged to `static_size::init`, so a default-constructed pool has
`size() = 0`; scheduling valid tasks on it leaves them all pending, and a
worker dequeue step changes nothing because there is no worker. -/
theorem default_pool_no_workers :
    thread_pool.newDefault = thread_pool.new 0 ∧
    (∀ n, (thread_pool.new n).size = n) ∧
    thread_pool.newDefault.size = 0 ∧
    (∀ ts : List Task, (∀ t, t ∈ ts → t.valid = true) →
      (scheduleAll thread_pool.newDefault ts).pending = ts.length ∧
      (scheduleAll thread_pool.newDefault ts).startNext =
        scheduleAll thread_pool.newDefault ts) := by
  refine ⟨rfl, fun n => rfl, rfl, fun ts hvalid => ⟨?_, ?_⟩⟩
  · rw [PoolCore.pending, scheduleAll_container ts thread_pool.newDefault rfl hvalid]
    simp [thread_pool.newDefault, thread_pool.new, static_size.init, initialCore,
      tagFrom_length]
  · have hw := (scheduleAll_fields ts thread_pool.newDefault).1
    unfold PoolCore.startNext
    rw [hw]
    simp [thread_pool.newDefault, thread_pool.new, static_size.init, initialCore]

/-- C5: after `clear()` there are no pending tasks, every discarded task's
async handle is fulfilled with a cancellation failure, and the running
tasks (hence `active()`) are untouched. -/
theorem clear_cancels (s : PoolCore)
    (hp : ∀ t, t ∈ s.container → s.handles t.id = HandleState.pending) :
    (PoolCore.clear s).pending = 0 ∧
    (∀ t, t ∈ s.container →
      (PoolCore.clear s).handles t.id = HandleState.fulfilled (Outcome.failure "cancelled")) ∧
    (PoolCore.clear s).running = s.running ∧
    (PoolCore.clear s).active = s.active := by
  refine ⟨rfl, ?_, rfl, rfl⟩
  intro t hmem
  exact cancelAll_cancels s.container s.handles t hmem (hp t hmem)

/-- Witness for C5 at a concrete pool with two pending tasks. -/
theorem clear_cancels_witness :
    (∀ t, t ∈ samplePool.container → samplePool.handles t.id = HandleState.pending) ∧
    ((PoolCore.clear samplePool).pending = 0 ∧
      (∀ t, t ∈ samplePool.container →
        (PoolCore.clear samplePool).handles t.id =
          HandleState.fulfilled (Outcome.failure "cancelled")) ∧
      (PoolCore.clear samplePool).running = samplePool.running ∧
      (PoolCore.clear samplePool).active = samplePool.active) :=
  ⟨by decide, clear_cancels samplePool (by decide)⟩

theorem waitCondition_iff (s : PoolCore) (k : Nat) :
    PoolCore.waitCondition s k = true ↔ s.pending + s.active ≤ k := by
  simp [PoolCore.waitCondition, Nat.ble_eq]

theorem waitCondition_false (s : PoolCore) (k : Nat)
    (hc : ¬ PoolCore.waitCondition s k = true) : k < s.pending + s.active := by
  rcases Nat.lt_or_ge k (s.pending + s.active) with h1 | h1
  · exact h1
  · exact absurd ((waitCondition_iff s k).mpr h1) hc

/-- C7: the timed `wait(deadline, threshold)` returns true exactly when
some observed state before the deadline has `pending + active` at or below
the threshold; the state at the moment of return is one of the observed
states (the wait itself modifies nothing); a true return happens at a state
meeting the threshold, and a false return means every state observed up to
the deadline stayed above the threshold. -/
theorem timedWait_spec (k : Nat) : ∀ (obs : List PoolCore) (s : PoolCore),
    ((timedWait k s obs).1 = true ↔
      ∃ x, x ∈ s :: obs ∧ x.pending + x.active ≤ k) ∧
    (timedWait k s obs).2 ∈ s :: obs ∧
    ((timedWait k s obs).1 = true →
      (timedWait k s obs).2.pending + (timedWait k s obs).2.active ≤ k) ∧
    ((timedWait k s obs).1 = false →
      ∀ x, x ∈ s :: obs → k < x.pending + x.active) := by
  intro obs
  induction obs with
  | nil =>
    intro s
    by_cases hc : PoolCore.waitCondition s k = true
    · have h : timedWait k s [] = (true, s) := by simp [timedWait, hc]
      rw [h]
      refine ⟨?_, List.mem_singleton_self s, ?_, ?_⟩
      · constructor
        · intro _
          exact ⟨s, List.mem_singleton_self s, (waitCondition_iff s k).mp hc⟩
        · intro _; rfl
      · intro _; exact (waitCondition_iff s k).mp hc
      · intro hf; simp at hf
    · have h : timedWait k s [] = (false, s) := by simp [timedWait, hc]
      rw [h]
      have hgt := waitCondition_false s k hc
      refine ⟨?_, List.mem_singleton_self s, ?_, ?_⟩
      · constructor
        · intro hf; simp at hf
        · rintro ⟨x, hx, hle⟩
          rw [List.mem_singleton] at hx
          subst hx
          omega
      · intro hf; simp at hf
      · intro _ x hx
        rw [List.mem_singleton] at hx
        subst hx
        exact hgt
  | cons s2 rest ih =>
    intro s
    by_cases hc : PoolCore.waitCondition s k = true
    · have h : timedWait k s (s2 :: rest) = (true, s) := by simp [timedWait, hc]
      rw [h]
      refine ⟨?_, List.mem_cons_self s (s2 :: rest), ?_, ?_⟩
      · constructor
        · intro _
          exact ⟨s, List.mem_cons_self s (s2 :: rest), (waitCondition_iff s k).mp hc⟩
        · intro _; rfl
      · intro _; exact (waitCondition_iff s k).mp hc
      · intro hf; simp at hf
    · have h : timedWait k s (s2 :: rest) = timedWait k s2 rest := by
        simp [timedWait, hc]
      have hgt := waitCondition_false s k hc
      obtain ⟨ih1, ih2, ih3, ih4⟩ := ih s2
      rw [h]
      refine ⟨?_, List.mem_cons_of_mem s ih2, ih3, ?_⟩
      · rw [ih1]
        constructor
        · rintro ⟨x, hx, hle⟩
          exact ⟨x, List.mem_cons_of_mem s hx, hle⟩
        · rintro ⟨x, hx, hle⟩
          rcases List.mem_cons.mp hx with he | hm
          · subst he; omega
          · exact ⟨x, hm, hle⟩
      · intro hf x hx
        rcases List.mem_cons.mp hx with he | hm
        · subst he; exact hgt
        · exact ih4 hf x hm

/-- C8: the task sum `pending() + active()` is never negative, rises by
exactly one exactly at a successful `schedule`, stays unchanged when a
worker dequeues a task or when an operation is a no-op (rejected schedule,
finish of a non-existent slot, clear of an empty container), and falls by
exactly one exactly when a running task finishes or a pending task is
discarded by clear/cancellation. -/
theorem count_delta (s : PoolCore) (e : Event) :
    0 ≤ (step s e).pending + (step s e).active ∧
    (match e with
     | Event.sched t =>
         if s.terminated = false ∧ t.valid = true then
           (step s e).pending + (step s e).active = s.pending + s.active + 1
         else step s e = s
     | Event.start => (step s e).pending + (step s e).active = s.pending + s.active
     | Event.finish i =>
         if i < s.running.length then
           s.pending + s.active = (step s e).pending + (step s e).active + 1
         else step s e = s
     | Event.clearOne =>
         if s.container.isEmpty then step s e = s
         else s.pending + s.active = (step s e).pending + (step s e).active + 1) := by
  refine ⟨Nat.zero_le _, ?_⟩
  cases e with
  | sched t =>
    cases hb : s.terminated <;> cases hv : t.valid <;>
      simp_all [step, PoolCore.schedule, PoolCore.pending, PoolCore.active, fifo_push]
    omega
  | start =>
    simp only [step, PoolCore.startNext]
    split
    · cases hcont : s.container with
      | nil => simp [fifo_pop, hcont]
      | cons t rest =>
        simp [fifo_pop, hcont, PoolCore.pending, PoolCore.active]
        omega
    · rfl
  | finish i =>
    simp only [step]
    by_cases hi : i < s.running.length
    · rw [if_pos hi]
      simp only [PoolCore.finishAt]
      rw [List.get?_eq_get hi]
      simp only [PoolCore.pending, PoolCore.active]
      have := List.length_eraseIdx_add_one hi
      omega
    · rw [if_neg hi]
      simp only [PoolCore.finishAt]
      rw [List.get?_eq_none.mpr (Nat.le_of_not_lt hi)]
  | clearOne =>
    cases hcont : s.container with
    | nil => simp [step, PoolCore.clearOne, hcont]
    | cons t rest =>
      simp [step, PoolCore.clearOne, hcont, PoolCore.pending, PoolCore.active]
      omega

theorem step_preserves_fulfilled (s : PoolCore) (e : Event) (j : Nat) (o : Outcome)
    (hj : j < s.nextId) (hjf : s.handles j = HandleState.fulfilled o) :
    (step s e).handles j = HandleState.fulfilled o := by
  cases e with
  | sched t =>
    simp only [step, PoolCore.schedule]
    split
    · exact hjf
    · have hne : j ≠ s.nextId := Nat.ne_of_lt hj
      simp [hne, hjf]
  | start =>
    simp only [step, PoolCore.startNext]
    split
    · cases hcont : s.container with
      | nil => simp [fifo_pop, hjf]
      | cons t rest => simp [fifo_pop, hjf]
    · exact hjf
  | finish i =>
    simp only [step, PoolCore.finishAt]
    cases hg : s.running.get? i with
    | none => exact hjf
    | some t =>
      by_cases hjt : j = t.id
      · subst hjt
        simp [fulfillAt, hjf]
      · simp [fulfillAt, hjt, hjf]
  | clearOne =>
    simp only [step, PoolCore.clearOne]
    cases hcont : s.container with
    | nil => exact hjf
    | cons t rest =>
      by_cases hjt : j = t.id
      · subst hjt
        simp [fulfillAt, hjf]
      · simp [fulfillAt, hjt, hjf]

/-- C2: on a live pool with a free worker, a valid task is accepted by
`schedule`, which hands back the async handle together with the updated
core; the handle is pending at submission, is fulfilled with the body's
outcome (return value, or the captured failure when the body raises) once
the worker has dequeued and executed the task, is never changed again by
any later transition (fulfilled exactly once), and the pool still accepts
a subsequent `schedule` call — the failing body never crashed the worker
loop. -/
theorem accepted_task_handle_fulfilled_once (s : PoolCore) (t t2 : Task)
    (hterm : s.terminated = false) (hv : t.valid = true)
    (hcont : s.container = []) (hrun : s.running = [])
    (hw : 0 < s.workerCount) (hv2 : t2.valid = true) :
    thread_pool.schedule s t =
      Except.ok (s.nextId, (PoolCore.schedule s t).2) ∧
    ((PoolCore.schedule s t).2).handles s.nextId = HandleState.pending ∧
    (((PoolCore.schedule s t).2.startNext).finishAt 0).handles s.nextId =
      HandleState.fulfilled (outcomeOf t.body) ∧
    (∀ e : Event,
      (step (((PoolCore.schedule s t).2.startNext).finishAt 0) e).handles s.nextId =
        HandleState.fulfilled (outcomeOf t.body)) ∧
    (∃ q, thread_pool.schedule (((PoolCore.schedule s t).2.startNext).finishAt 0) t2 =
      Except.ok q) := by
  obtain ⟨c, r, w, term, n, hs⟩ := s
  dsimp only at hterm hv hcont hrun hw hv2 ⊢
  subst hterm hcont hrun
  have hcore : PoolCore.schedule ⟨[], [], w, false, n, hs⟩ t =
      (true, ⟨[{ id := n, task := t }], [], w, false, n + 1,
        fun j => if j = n then HandleState.pending else hs j⟩) := by
    simp [PoolCore.schedule, hv, fifo_push]
  have hs3 : ((PoolCore.schedule ⟨[], [], w, false, n, hs⟩ t).2.startNext).finishAt 0 =
      ⟨[], [], w, false, n + 1,
        fulfillAt (fun j => if j = n then HandleState.pending else hs j) n
          (outcomeOf t.body)⟩ := by
    rw [hcore]
    simp [PoolCore.startNext, hw, fifo_pop, PoolCore.finishAt]
  refine ⟨?_, ?_, ?_, ?_, ?_⟩
  · simp [thread_pool.schedule, hcore]
  · rw [hcore]
    simp
  · rw [hs3]
    simp [fulfillAt]
  · intro e
    rw [hs3]
    apply step_preserves_fulfilled
    · exact Nat.lt_succ_self n
    · simp [fulfillAt]
  · rw [hs3]
    exact ⟨(n + 1,
      ⟨[{ id := n + 1, task := t2 }], [], w, false, n + 1 + 1,
        fun j => if j = n + 1 then HandleState.pending
          else fulfillAt (fun j2 => if j2 = n then HandleState.pending else hs j2) n
            (outcomeOf t.body) j⟩),
      by simp [thread_pool.schedule, PoolCore.schedule, hv2, fifo_push]⟩

/-- Witness for C2: a fresh single-worker pool, a task whose body raises a
failure, and a subsequent valid task. -/
theorem accepted_task_handle_fulfilled_once_witness :
    (thread_pool.new 1).terminated = false ∧ taskFail.valid = true ∧
    (thread_pool.new 1).container = [] ∧ (thread_pool.new 1).running = [] ∧
    0 < (thread_pool.new 1).workerCount ∧ taskA.valid = true ∧
    (thread_pool.schedule (thread_pool.new 1) taskFail =
        Except.ok ((thread_pool.new 1).nextId,
          (PoolCore.schedule (thread_pool.new 1) taskFail).2) ∧
      ((PoolCore.schedule (thread_pool.new 1) taskFail).2).handles
          (thread_pool.new 1).nextId = HandleState.pending ∧
      (((PoolCore.schedule (thread_pool.new 1) taskFail).2.startNext).finishAt 0).handles
          (thread_pool.new 1).nextId = HandleState.fulfilled (outcomeOf taskFail.body) ∧
      (∀ e : Event,
        (step (((PoolCore.schedule (thread_pool.new 1) taskFail).2.startNext).finishAt 0)
            e).handles (thread_pool.new 1).nextId =
          HandleState.fulfilled (outcomeOf taskFail.body)) ∧
      (∃ q, thread_pool.schedule
          (((PoolCore.schedule (thread_pool.new 1) taskFail).2.startNext).finishAt 0)
          taskA = Except.ok q)) :=
  ⟨rfl, rfl, rfl, rfl, by decide, rfl,
    accepted_task_handle_fulfilled_once (thread_pool.new 1) taskFail taskA
      rfl rfl rfl rfl (by decide) rfl⟩

end Threadpool
